import Mathlib

/-!
Verification of the password-guesser core: a shallow embedding of the
mutation rule library (src/mutations.rs), the static corpora
(src/common.rs), the tiered candidate generator (src/generator.rs) and
the hash-matching engine (src/cracker/hash.rs, src/cracker/mod.rs),
together with theorems settling the specification claims.

Modelling conventions:
- Rust `String`/`&str` values are Lean `String`s (both are sequences of
  Unicode scalar values); `str::len` (UTF-8 byte count) is modelled by
  `strLen` below.
- Rust's `to_lowercase`/`to_uppercase` are modelled by their ASCII
  case mappings (`charToLower`/`charToUpper` applied character-wise),
  which agree with Rust on all ASCII input.
- The MD5/SHA digest computations and `bcrypt::verify` come from
  external crates; they are parameters (`DigestImpl`, a `verify`
  function) of the matching engine, which is what the engine's own
  logic is generic over.  `hex::encode` is modelled concretely.
- The `rayon` data-parallel fan-out in the matching engine is modelled
  by its sequential left-to-right schedule (workers fold over the
  candidate list in order); the progress-bar side channel is dropped.
-/

namespace PasswordGuesser

/-! ### Rust string primitives -/

/-- ASCII lowercase mapping of a character (model of Rust char lowercasing,
which agrees on ASCII). -/
def charToLower (c : Char) : Char :=
  if 65 ≤ c.toNat ∧ c.toNat ≤ 90 then Char.ofNat (c.toNat + 32) else c

/-- ASCII uppercase mapping of a character (model of Rust char uppercasing,
which agrees on ASCII). -/
def charToUpper (c : Char) : Char :=
  if 97 ≤ c.toNat ∧ c.toNat ≤ 122 then Char.ofNat (c.toNat - 32) else c

/-- Model of Rust `str::to_lowercase`. -/
def strToLower (s : String) : String := String.mk (s.data.map charToLower)

/-- Model of Rust `str::to_uppercase`. -/
def strToUpper (s : String) : String := String.mk (s.data.map charToUpper)

/-- Number of bytes in the UTF-8 encoding of one character, as in Rust
`char::len_utf8`. -/
def charUtf8Len (c : Char) : Nat :=
  if c.toNat < 0x80 then 1
  else if c.toNat < 0x800 then 2
  else if c.toNat < 0x10000 then 3
  else 4

/-- Model of Rust `str::len`: the UTF-8 byte length of a string. -/
def strLen (s : String) : Nat := (s.data.map charUtf8Len).sum

/-! ### Mutation rule library (src/mutations.rs) -/

/-- `capitalize_first` from src/mutations.rs: uppercase the first character,
keep the rest. -/
def capitalize_first (s : String) : String :=
  match s.data with
  | [] => ""
  | c :: rest => String.mk (charToUpper c :: rest)

/-- `alternating_case` from src/mutations.rs: even (0-based) positions
lowercased, odd positions uppercased. -/
def alternating_case (s : String) : String :=
  String.mk (s.data.enum.map (fun p => if p.1 % 2 = 0 then charToLower p.2 else charToUpper p.2))

/-- The character substitution performed by `full_leet` in src/mutations.rs. -/
def leet_char (c : Char) : Char :=
  if c = 'a' then '@'
  else if c = 'e' then '3'
  else if c = 'i' then '1'
  else if c = 'o' then '0'
  else if c = 's' then '$'
  else if c = 't' then '7'
  else if c = 'l' then '1'
  else c

/-- `full_leet` from src/mutations.rs: character-wise leet substitution. -/
def full_leet (s : String) : String := String.mk (s.data.map leet_char)

/-- The substitution table of `single_leet_variants` in src/mutations.rs. -/
def leet_map : List (Char × List Char) :=
  [('a', ['@', '4']), ('e', ['3']), ('i', ['1', '!']), ('o', ['0']),
   ('s', ['$', '5']), ('t', ['7', '+']), ('l', ['1'])]

/-- `single_leet_variants` from src/mutations.rs: one variant per
(position, substitute) pair. -/
def single_leet_variants (s : String) : List String :=
  let chars := s.data
  chars.enum.flatMap (fun p =>
    leet_map.flatMap (fun fr =>
      if p.2 = fr.1 then fr.2.map (fun r => String.mk (chars.set p.1 r)) else []))

/-- `mutate_word` from src/mutations.rs. -/
def mutate_word (word : String) : List String :=
  let lower := strToLower word
  let reversed := String.mk lower.data.reverse
  [lower, capitalize_first lower, strToUpper lower, alternating_case lower,
   reversed, capitalize_first reversed,
   full_leet lower, capitalize_first (full_leet lower)]
  ++ single_leet_variants lower

/-- `mutate_combined` from src/mutations.rs. -/
def mutate_combined (word : String) : List String :=
  let lower := strToLower word
  [lower, capitalize_first lower, strToUpper lower, full_leet lower]

/-- `combine_words` from src/mutations.rs. -/
def combine_words (a b : String) : List String :=
  let a_lower := strToLower a
  let b_lower := strToLower b
  let a_cap := capitalize_first a_lower
  let b_cap := capitalize_first b_lower
  [a_lower ++ b_lower, a_cap ++ b_cap, a_cap ++ b_lower,
   a_lower ++ "_" ++ b_lower, a_cap ++ "_" ++ b_cap,
   a_lower ++ "." ++ b_lower,
   b_lower ++ a_lower, b_cap ++ a_cap]

/-- `combine_word_number` from src/mutations.rs. -/
def combine_word_number (word number : String) : List String :=
  let lower := strToLower word
  let cap := capitalize_first lower
  [lower ++ number, cap ++ number, number ++ lower, number ++ cap]

/-- `apply_suffix` from src/mutations.rs. -/
def apply_suffix (word sfx : String) : List String :=
  let lower := strToLower word
  let cap := capitalize_first lower
  [lower ++ sfx, cap ++ sfx]

/-- Model of `apply_prefix` from src/mutations.rs (prepend to lowercase and
capitalized base). -/
def apply_prefixed (pre word : String) : List String :=
  let lower := strToLower word
  let cap := capitalize_first lower
  [pre ++ lower, pre ++ cap]

/-- `double_word` from src/mutations.rs. -/
def double_word (word : String) : List String :=
  let lower := strToLower word
  let cap := capitalize_first lower
  [lower ++ lower, lower ++ "_" ++ lower, cap ++ cap]

/-! ### Static corpora (src/common.rs) -/

/-- `keyboard_patterns` from src/common.rs. -/
def keyboard_patterns : List String :=
  ["qwerty", "qwertyuiop", "qwert", "asdfgh", "asdfghjkl", "zxcvbn", "zxcvbnm",
   "qazwsx", "1qaz2wsx", "1qaz2wsx3edc", "zaq1xsw2",
   "123456", "1234567", "12345678", "123456789", "1234567890",
   "0987654321", "987654321", "654321", "54321",
   "147258369", "159357", "789456123", "321654987",
   "aaaaaa", "000000", "111111", "222222", "555555", "666666", "777777", "88888888",
   "999999", "112233", "123123", "121212", "131313", "123321",
   "qwer", "asdf", "zxcv", "1234", "4321",
   "abcdef", "abcdefg", "abcdefgh", "abcd1234", "1234abcd",
   "abc123", "123abc", "aaa111", "zzz999"]

/-- `numeric_suffixes` from src/common.rs: single digits, curated double and
triple digits (note the Rust literal `007` is the integer 7 and formats as
"7"), years 1950..=2026 and zero-padded short years 00..=26. -/
def numeric_suffixes : List String :=
  ((List.range 10).map (fun i => toString i))
  ++ ([10, 11, 12, 13, 21, 22, 23, 69, 77, 88, 99].map (fun n => toString n))
  ++ ([100, 111, 123, 321, 234, 420, 666, 777, 7, 911].map (fun n => toString n))
  ++ ((List.range 77).map (fun k => toString (1950 + k)))
  ++ ((List.range 27).map (fun y => if y < 10 then "0" ++ toString y else toString y))

/-- `symbol_suffixes` from src/common.rs. -/
def symbol_suffixes : List String :=
  ["!", "!!", "!!!", "@", "#", "$", "!@#", "!1", "@1", "#1",
   "!!", "?", "*", ".", "!", "!@", "@#", "#$"]

/-- `common_prefixes` from src/common.rs. -/
def common_prefixes : List String :=
  ["my", "the", "i", "its", "mr", "ms", "im", "iam", "ilove", "ilike",
   "my1", "the1", "super", "mega", "big", "lil"]

/-! ### Tiered candidate generator (src/generator.rs) -/

/-- `GeneratorConfig` from src/generator.rs (depth 1-3, inclusive length
bounds; none of the fields are validated anywhere in the source). -/
structure GeneratorConfig where
  depth : Nat
  min_length : Nat
  max_length : Nat
deriving DecidableEq

/-- The profile as the generator sees it: `generate_candidates` only calls
`profile.seed_words()` and `profile.seed_numbers()`, so the profile is
embedded as the pair of those two lists (the spec likewise treats it as the
external `SeedSet{words, numbers}` collaborator). -/
structure Profile where
  seed_words : List String
  seed_numbers : List String
deriving DecidableEq

/-- The generator's running state: the output sequence plus the cross-tier
seen-set (a `HashSet` in the source, modelled as the list of its members). -/
structure GenState where
  candidates : List String
  seen : List String
deriving DecidableEq

/-- `add_unique` from src/generator.rs: append each item that is within the
length bounds (in UTF-8 bytes, Rust `str::len`) and not seen before,
recording it in the seen-set. -/
def add_unique (config : GeneratorConfig) (st : GenState) (items : List String) : GenState :=
  items.foldl (fun st item =>
    if config.min_length ≤ strLen item ∧ strLen item ≤ config.max_length
        ∧ ¬ st.seen.contains item then
      { candidates := st.candidates ++ [item], seen := item :: st.seen }
    else st) st

/-- Tier 2 raw items: `mutate_word` and `double_word` over every seed word. -/
def tier2_items (seed_words : List String) : List String :=
  seed_words.flatMap (fun w => mutate_word w ++ double_word w)

/-- Tier 3 raw items: numeric/symbol suffixes and common pre-positions per
seed word, word-number combinations, then the seed numbers themselves. -/
def tier3_items (seed_words seed_numbers : List String) : List String :=
  (seed_words.flatMap (fun w =>
      (numeric_suffixes.flatMap (fun sfx => apply_suffix w sfx))
   ++ (symbol_suffixes.flatMap (fun sfx => apply_suffix w sfx))
   ++ (common_prefixes.flatMap (fun pre => apply_prefixed pre w))
   ++ (seed_numbers.flatMap (fun num => combine_word_number w num))))
  ++ seed_numbers

/-- Tier 4 raw items: `combine_words` over ordered index pairs i < j of seed
words, and each seed word with each seed number. -/
def tier4_items (seed_words seed_numbers : List String) : List String :=
  seed_words.enum.flatMap (fun p =>
    ((seed_words.drop (p.1 + 1)).flatMap (fun b => combine_words p.2 b))
    ++ (seed_numbers.flatMap (fun num => combine_word_number p.2 num)))

/-- Tier 6 raw items: every seed-word pair combination further expanded via
`mutate_combined` and a fixed suffix set, then every `mutate_word` variant
of each seed word with every numeric suffix. -/
def tier6_items (seed_words : List String) : List String :=
  (seed_words.enum.flatMap (fun p =>
    (seed_words.drop (p.1 + 1)).flatMap (fun b =>
      (combine_words p.2 b).flatMap (fun combo =>
        mutate_combined combo
        ++ (["123", "!", "1", "12", "1!"].map (fun sfx => combo ++ sfx))))))
  ++ (seed_words.flatMap (fun w =>
       (mutate_word w).flatMap (fun m =>
         numeric_suffixes.flatMap (fun sfx => apply_suffix m sfx))))

/-- State after Tier 1 (the common-password corpus).

Modelled from the spec: the Tier 1 corpus is `include_str!` of
`data/common_passwords.txt`, a data file that is not part of the sources;
it is therefore a parameter `common_passwords` here, and every theorem
quantifies over it. -/
def gen_st1 (common_passwords : List String) (config : GeneratorConfig) : GenState :=
  add_unique config ⟨[], []⟩ common_passwords

/-- State after Tier 2 (mutated seed words). -/
def gen_st2 (cp : List String) (p : Profile) (config : GeneratorConfig) : GenState :=
  add_unique config (gen_st1 cp config) (tier2_items p.seed_words)

/-- State after Tier 3 (gated by depth ≥ 2). -/
def gen_st3 (cp : List String) (p : Profile) (config : GeneratorConfig) : GenState :=
  if 2 ≤ config.depth then
    add_unique config (gen_st2 cp p config) (tier3_items p.seed_words p.seed_numbers)
  else gen_st2 cp p config

/-- State after Tier 4 (gated by depth ≥ 2). -/
def gen_st4 (cp : List String) (p : Profile) (config : GeneratorConfig) : GenState :=
  if 2 ≤ config.depth then
    add_unique config (gen_st3 cp p config) (tier4_items p.seed_words p.seed_numbers)
  else gen_st3 cp p config

/-- State after Tier 5 (keyboard patterns, gated by depth ≥ 2). -/
def gen_st5 (cp : List String) (p : Profile) (config : GeneratorConfig) : GenState :=
  if 2 ≤ config.depth then
    add_unique config (gen_st4 cp p config) keyboard_patterns
  else gen_st4 cp p config

/-- State after Tier 6 (deep mutations, gated by depth ≥ 3). -/
def gen_st6 (cp : List String) (p : Profile) (config : GeneratorConfig) : GenState :=
  if 3 ≤ config.depth then
    add_unique config (gen_st5 cp p config) (tier6_items p.seed_words)
  else gen_st5 cp p config

/-- `generate_candidates` from src/generator.rs: the sequential tier pipeline
(the progress-bar side channel is dropped; `common_passwords` is the Tier 1
corpus parameter, see `gen_st1`). -/
def generate_candidates (cp : List String) (p : Profile) (config : GeneratorConfig) : List String :=
  (gen_st6 cp p config).candidates

/-! ### Hash-matching engine (src/cracker/mod.rs, src/cracker/hash.rs) -/

/-- `HashAlgorithm` from src/cracker/mod.rs. -/
inductive HashAlgorithm where
  | Md5
  | Sha1
  | Sha256
  | Sha512
  | Bcrypt
deriving DecidableEq

/-- `HashAlgorithm::from_str` from src/cracker/mod.rs: case-insensitive
selector parsing. -/
def HashAlgorithm.from_str (s : String) : Option HashAlgorithm :=
  match strToLower s with
  | "md5" => some .Md5
  | "sha1" => some .Sha1
  | "sha256" => some .Sha256
  | "sha512" => some .Sha512
  | "bcrypt" => some .Bcrypt
  | _ => none

/-- `CrackResult` from src/cracker/mod.rs. -/
structure CrackResult where
  hash : String
  plaintext : String
  algorithm : HashAlgorithm
deriving DecidableEq

/-- The external digest crates (md5, sha1, sha2) as a parameter: each maps an
input string to its digest byte sequence. -/
structure DigestImpl where
  md5_bytes : String → List (Fin 256)
  sha1_bytes : String → List (Fin 256)
  sha256_bytes : String → List (Fin 256)
  sha512_bytes : String → List (Fin 256)

/-- One lowercase hex digit (0-15). -/
def hex_digit (n : Nat) : Char :=
  if n < 10 then Char.ofNat (48 + n) else Char.ofNat (87 + n)

/-- Model of `hex::encode`: each byte becomes two lowercase hex digits,
high nibble first. -/
def hex_encode (bs : List (Fin 256)) : String :=
  String.mk (bs.flatMap (fun b => [hex_digit (b.val / 16), hex_digit (b.val % 16)]))

/-- `compute_hash` from src/cracker/hash.rs: hex-encoded digest of the input
under the selected algorithm.  The `Bcrypt` arm is `unreachable!` in the
source (bcrypt is dispatched to `crack_bcrypt` before `compute_hash` can be
called); it is mapped to the empty string here. -/
def compute_hash (impl : DigestImpl) (algo : HashAlgorithm) (input : String) : String :=
  match algo with
  | .Md5 => hex_encode (impl.md5_bytes input)
  | .Sha1 => hex_encode (impl.sha1_bytes input)
  | .Sha256 => hex_encode (impl.sha256_bytes input)
  | .Sha512 => hex_encode (impl.sha512_bytes input)
  | .Bcrypt => ""

/-- The shared mutable state of the fan-out in `crack_fast_hash` /
`crack_bcrypt`: the mutex-guarded result list, the atomic found-counter and
the atomic stop flag. -/
structure FastState where
  results : List CrackResult
  found_count : Nat
  all_found : Bool
deriving DecidableEq

/-- The body of the inner target loop of `crack_fast_hash`: on a digest
match, append a result, bump the found-counter and raise the stop flag once
the counter reaches the target count. -/
def check_target (algo : HashAlgorithm) (candidate hash_hex : String) (total : Nat)
    (st : FastState) (target : String) : FastState :=
  if hash_hex = target then
    let count := st.found_count + 1
    { results := st.results ++ [⟨target, candidate, algo⟩],
      found_count := count,
      all_found := if total ≤ count then true else st.all_found }
  else st

/-- One unit of work of `crack_fast_hash`: skip when the stop flag is set,
otherwise hash the candidate once and compare it against every target
(targets are not removed as they match). -/
def process_candidate (impl : DigestImpl) (algo : HashAlgorithm) (targets : List String)
    (total : Nat) (st : FastState) (candidate : String) : FastState :=
  if st.all_found then st
  else targets.foldl (check_target algo candidate (compute_hash impl algo candidate) total) st

/-- `crack_fast_hash` from src/cracker/hash.rs: lowercase the targets, then
fan out over the candidates (modelled as the sequential schedule of the
parallel loop). -/
def crack_fast_hash (impl : DigestImpl) (hashes : List String) (algo : HashAlgorithm)
    (candidates : List String) : List CrackResult :=
  let target_hashes := hashes.map strToLower
  (candidates.foldl (process_candidate impl algo target_hashes target_hashes.length)
    ⟨[], 0, false⟩).results

/-- The body of the inner target loop of `crack_bcrypt`: `verify c t = true`
models the `Ok(true)` outcome of `bcrypt::verify`. -/
def verify_target (verify : String → String → Bool) (candidate : String) (total : Nat)
    (st : FastState) (target : String) : FastState :=
  if verify candidate target then
    let count := st.found_count + 1
    { results := st.results ++ [⟨target, candidate, .Bcrypt⟩],
      found_count := count,
      all_found := if total ≤ count then true else st.all_found }
  else st

/-- One unit of work of `crack_bcrypt`: skip when the stop flag is set,
otherwise verify the candidate against every target. -/
def process_bcrypt (verify : String → String → Bool) (hashes : List String)
    (st : FastState) (candidate : String) : FastState :=
  if st.all_found then st
  else hashes.foldl (verify_target verify candidate hashes.length) st

/-- `crack_bcrypt` from src/cracker/hash.rs: per (candidate, target) pair a
verify operation (`bcrypt::verify` is the `verify` parameter). -/
def crack_bcrypt (verify : String → String → Bool) (hashes candidates : List String) :
    List CrackResult :=
  (candidates.foldl (process_bcrypt verify hashes) ⟨[], 0, false⟩).results

/-- `crack_hashes` from src/cracker/hash.rs: reject an empty target set, then
dispatch on the algorithm class.  Both strategies always succeed. -/
def crack_hashes (impl : DigestImpl) (verify : String → String → Bool)
    (hashes : List String) (algo : HashAlgorithm) (candidates : List String) :
    Except String (List CrackResult) :=
  if hashes.isEmpty then .error "No hashes provided"
  else
    match algo with
    | .Bcrypt => .ok (crack_bcrypt verify hashes candidates)
    | _ => .ok (crack_fast_hash impl hashes algo candidates)

/-- The matching contract at the selector-string level, as in
`cmd_crack_hash` in src/main.rs: an unrecognized selector is rejected before
anything else, then `crack_hashes` runs. -/
def crack (impl : DigestImpl) (verify : String → String → Bool) (algo_str : String)
    (hashes candidates : List String) : Except String (List CrackResult) :=
  match HashAlgorithm.from_str algo_str with
  | none => .error ("Unknown algorithm: " ++ algo_str)
  | some a => crack_hashes impl verify hashes a candidates

/-- Invariant carried by the generator state across tiers: the output
sequence is duplicate-free, every entry is within the length bounds, and
every entry is recorded in the seen-set. -/
def GenInv (config : GeneratorConfig) (st : GenState) : Prop :=
  st.candidates.Nodup
  ∧ (∀ c ∈ st.candidates, config.min_length ≤ strLen c ∧ strLen c ≤ config.max_length)
  ∧ (∀ c ∈ st.candidates, c ∈ st.seen)

/-- The substitution table stated by the specification for `full_leet`. -/
def full_leet_table : List (Char × Char) :=
  [('a', '@'), ('e', '3'), ('i', '1'), ('o', '0'), ('s', '$'), ('t', '7'), ('l', '1')]

/-- A concrete digest assignment used to instantiate theorems with
hypotheses on concrete inputs. -/
def toy_impl : DigestImpl :=
  { md5_bytes := fun s => if s = "pw" then [171] else [0],
    sha1_bytes := fun _ => [0],
    sha256_bytes := fun _ => [0],
    sha512_bytes := fun _ => [0] }

/-- A concrete verify function (never matches) used to instantiate theorems
with hypotheses on concrete inputs. -/
def toy_verify : String → String → Bool := fun _ _ => false

/-! ### Character-level helper lemmas -/

theorem char_toNat_ofNat {n : Nat} (h : n.isValidChar) : (Char.ofNat n).toNat = n := by
  unfold Char.ofNat
  rw [dif_pos h]
  unfold Char.ofNatAux Char.toNat
  simp [UInt32.toNat, UInt32.ofNatCore]

theorem charToLower_idem (c : Char) : charToLower (charToLower c) = charToLower c := by
  unfold charToLower
  by_cases h : 65 ≤ c.toNat ∧ c.toNat ≤ 90
  · rw [if_pos h]
    have hv : (c.toNat + 32).isValidChar := by
      left
      omega
    have ht : (Char.ofNat (c.toNat + 32)).toNat = c.toNat + 32 := char_toNat_ofNat hv
    rw [if_neg]
    omega
  · rw [if_neg h, if_neg h]

theorem strToLower_idem (s : String) : strToLower (strToLower s) = strToLower s := by
  unfold strToLower
  simp only [List.map_map]
  congr 1
  exact List.map_congr_left (fun c _ => charToLower_idem c)

/-! ### Mutation rule library claims -/

theorem leet_char_eq_lookup (c : Char) :
    leet_char c = (full_leet_table.lookup c).getD c := by
  by_cases h1 : c = 'a'
  · subst h1; decide
  by_cases h2 : c = 'e'
  · subst h2; decide
  by_cases h3 : c = 'i'
  · subst h3; decide
  by_cases h4 : c = 'o'
  · subst h4; decide
  by_cases h5 : c = 's'
  · subst h5; decide
  by_cases h6 : c = 't'
  · subst h6; decide
  by_cases h7 : c = 'l'
  · subst h7; decide
  have e1 : (c == 'a') = false := beq_eq_false_iff_ne.mpr h1
  have e2 : (c == 'e') = false := beq_eq_false_iff_ne.mpr h2
  have e3 : (c == 'i') = false := beq_eq_false_iff_ne.mpr h3
  have e4 : (c == 'o') = false := beq_eq_false_iff_ne.mpr h4
  have e5 : (c == 's') = false := beq_eq_false_iff_ne.mpr h5
  have e6 : (c == 't') = false := beq_eq_false_iff_ne.mpr h6
  have e7 : (c == 'l') = false := beq_eq_false_iff_ne.mpr h7
  simp [leet_char, full_leet_table, List.lookup, h1, h2, h3, h4, h5, h6, h7,
    e1, e2, e3, e4, e5, e6, e7]

/-- Claim C6: `mutate_word(word)`, computed from the lowercase form of the
word, contains the identity, capitalized-first, all-uppercase,
alternating-case, reversed, reversed+capitalized-first, full-leet and
full-leet+capitalized-first forms plus every `single_leet_variants` output;
in particular `mutate_word "test"` contains "test", "Test", "TEST", "tset"
and "7est". -/
theorem mutate_word_contains_all_forms (w : String) :
    strToLower w ∈ mutate_word w
    ∧ capitalize_first (strToLower w) ∈ mutate_word w
    ∧ strToUpper (strToLower w) ∈ mutate_word w
    ∧ alternating_case (strToLower w) ∈ mutate_word w
    ∧ String.mk ((strToLower w).data.reverse) ∈ mutate_word w
    ∧ capitalize_first (String.mk ((strToLower w).data.reverse)) ∈ mutate_word w
    ∧ full_leet (strToLower w) ∈ mutate_word w
    ∧ capitalize_first (full_leet (strToLower w)) ∈ mutate_word w
    ∧ (∀ v ∈ single_leet_variants (strToLower w), v ∈ mutate_word w)
    ∧ ("test" ∈ mutate_word "test" ∧ "Test" ∈ mutate_word "test"
       ∧ "TEST" ∈ mutate_word "test" ∧ "tset" ∈ mutate_word "test"
       ∧ "7est" ∈ mutate_word "test") := by
  refine ⟨?_, ?_, ?_, ?_, ?_, ?_, ?_, ?_, ?_, ?_⟩
  · simp [mutate_word]
  · simp [mutate_word]
  · simp [mutate_word]
  · simp [mutate_word]
  · simp [mutate_word]
  · simp [mutate_word]
  · simp [mutate_word]
  · simp [mutate_word]
  · intro v hv
    simp [mutate_word]
    tauto
  · exact ⟨by decide, by decide, by decide, by decide, by decide⟩

theorem mutate_word_contains_all_forms_witness :
    "7est" ∈ mutate_word "test" := by
  have h := (mutate_word_contains_all_forms "test").2.2.2.2.2.2.2.2.1
  exact h "7est" (by decide)

/-- Claim C7: `full_leet` substitutes character-wise according to the table
a→@, e→3, i→1, o→0, s→$, t→7, l→1, leaves every other character unchanged,
applies the substitution at every qualifying position, and in particular
maps "password" to "p@$$w0rd" and "leet" to "1337". -/
theorem full_leet_charwise :
    (∀ s, (full_leet s).data.length = s.data.length)
    ∧ (∀ s (i : Nat), (full_leet s).data[i]?
        = (s.data[i]?).map (fun c => (full_leet_table.lookup c).getD c))
    ∧ (∀ c, full_leet_table.lookup c = none → leet_char c = c)
    ∧ full_leet "password" = "p@$$w0rd"
    ∧ full_leet "leet" = "1337" := by
  refine ⟨?_, ?_, ?_, by decide, by decide⟩
  · intro s
    simp [full_leet]
  · intro s i
    show (s.data.map leet_char)[i]? = _
    rw [List.getElem?_map]
    cases h : s.data[i]? with
    | none => rfl
    | some c => simp [leet_char_eq_lookup c]
  · intro c hnone
    rw [leet_char_eq_lookup c, hnone]
    rfl

theorem full_leet_charwise_witness : leet_char 'z' = 'z' :=
  full_leet_charwise.2.2.1 'z' (by decide)

/-- Claim C10: every mutation function depends only on the lowercase form of
its word argument(s): replacing a word argument by its lowercase form leaves
the output unchanged, for `mutate_word`, `mutate_combined`, `combine_words`
(both arguments), `combine_word_number`, `apply_suffix`, the affix-prepending
rule, and `double_word`. -/
theorem mutations_lowercase_invariant (w a b n sfx pre : String) :
    mutate_word w = mutate_word (strToLower w)
    ∧ mutate_combined w = mutate_combined (strToLower w)
    ∧ combine_words w b = combine_words (strToLower w) b
    ∧ combine_words a w = combine_words a (strToLower w)
    ∧ combine_word_number w n = combine_word_number (strToLower w) n
    ∧ apply_suffix w sfx = apply_suffix (strToLower w) sfx
    ∧ apply_prefixed pre w = apply_prefixed pre (strToLower w)
    ∧ double_word w = double_word (strToLower w) := by
  refine ⟨?_, ?_, ?_, ?_, ?_, ?_, ?_, ?_⟩
  · simp [mutate_word, strToLower_idem]
  · simp [mutate_combined, strToLower_idem]
  · simp [combine_words, strToLower_idem]
  · simp [combine_words, strToLower_idem]
  · simp [combine_word_number, strToLower_idem]
  · simp [apply_suffix, strToLower_idem]
  · simp [apply_prefixed, strToLower_idem]
  · simp [double_word, strToLower_idem]

/-! ### Generator lemmas and claims -/

theorem add_unique_cons (config : GeneratorConfig) (st : GenState) (i : String)
    (is : List String) :
    add_unique config st (i :: is) = add_unique config
      (if config.min_length ≤ strLen i ∧ strLen i ≤ config.max_length
          ∧ ¬ st.seen.contains i
       then ⟨st.candidates ++ [i], i :: st.seen⟩ else st) is := rfl

theorem add_unique_extends (config : GeneratorConfig) (items : List String) :
    ∀ st : GenState, st.candidates <+: (add_unique config st items).candidates := by
  induction items with
  | nil => intro st; exact List.prefix_refl _
  | cons i is ih =>
    intro st
    rw [add_unique_cons]
    split
    · have h1 : st.candidates <+: st.candidates ++ [i] := List.prefix_append _ _
      have h2 := ih (⟨st.candidates ++ [i], i :: st.seen⟩ : GenState)
      exact h1.trans h2
    · exact ih st

theorem add_unique_inv (config : GeneratorConfig) (items : List String) :
    ∀ st : GenState, GenInv config st → GenInv config (add_unique config st items) := by
  induction items with
  | nil => intro st h; exact h
  | cons i is ih =>
    intro st h
    rw [add_unique_cons]
    split
    case isTrue hc =>
      apply ih
      obtain ⟨hnd, hlen, hseen⟩ := h
      refine ⟨?_, ?_, ?_⟩
      · rw [List.nodup_append]
        refine ⟨hnd, List.nodup_singleton i, ?_⟩
        intro x hx hxi
        rw [List.mem_singleton] at hxi
        subst hxi
        exact hc.2.2 (List.elem_iff.mpr (hseen x hx))
      · intro c hcmem
        rcases List.mem_append.mp hcmem with hold | hnew
        · exact hlen c hold
        · rw [List.mem_singleton] at hnew
          subst hnew
          exact ⟨hc.1, hc.2.1⟩
      · intro c hcmem
        rcases List.mem_append.mp hcmem with hold | hnew
        · exact List.mem_cons_of_mem _ (hseen c hold)
        · rw [List.mem_singleton] at hnew
          subst hnew
          exact List.mem_cons_self _ _
    case isFalse => exact ih st h

theorem add_unique_depth_irrel (c c' : GeneratorConfig)
    (hmn : c.min_length = c'.min_length) (hmx : c.max_length = c'.max_length)
    (items : List String) : ∀ st, add_unique c st items = add_unique c' st items := by
  induction items with
  | nil => intro st; rfl
  | cons i is ih =>
    intro st
    rw [add_unique_cons, add_unique_cons, hmn, hmx]
    exact ih _

theorem add_unique_empty_bounds (config : GeneratorConfig)
    (h : config.max_length < config.min_length) (items : List String) :
    ∀ st, add_unique config st items = st := by
  induction items with
  | nil => intro st; rfl
  | cons i is ih =>
    intro st
    rw [add_unique_cons, if_neg]
    · exact ih st
    · rintro ⟨h1, h2, -⟩
      omega

theorem gen_inv (cp : List String) (p : Profile) (config : GeneratorConfig) :
    GenInv config (gen_st6 cp p config) := by
  have h0 : GenInv config (⟨[], []⟩ : GenState) := ⟨List.nodup_nil, by simp, by simp⟩
  have h1 : GenInv config (gen_st1 cp config) := add_unique_inv config cp _ h0
  have h2 : GenInv config (gen_st2 cp p config) := add_unique_inv config _ _ h1
  have h3 : GenInv config (gen_st3 cp p config) := by
    unfold gen_st3
    split
    · exact add_unique_inv config _ _ h2
    · exact h2
  have h4 : GenInv config (gen_st4 cp p config) := by
    unfold gen_st4
    split
    · exact add_unique_inv config _ _ h3
    · exact h3
  have h5 : GenInv config (gen_st5 cp p config) := by
    unfold gen_st5
    split
    · exact add_unique_inv config _ _ h4
    · exact h4
  unfold gen_st6
  split
  · exact add_unique_inv config _ _ h5
  · exact h5

/-- Claim C2: for every profile and configuration, the candidate sequence
returned by `generate_candidates` contains no repeated string, and every
candidate is within the configured length bounds. -/
theorem generate_candidates_nodup_and_length_bounds (cp : List String) (p : Profile)
    (config : GeneratorConfig) :
    (generate_candidates cp p config).Nodup
    ∧ ∀ c ∈ generate_candidates cp p config,
        config.min_length ≤ strLen c ∧ strLen c ≤ config.max_length := by
  obtain ⟨h1, h2, -⟩ := gen_inv cp p config
  exact ⟨h1, h2⟩

theorem gen_st2_depth_irrel (cp : List String) (p : Profile) (d d' mn mx : Nat) :
    gen_st2 cp p ⟨d, mn, mx⟩ = gen_st2 cp p ⟨d', mn, mx⟩ := by
  unfold gen_st2 gen_st1
  rw [add_unique_depth_irrel ⟨d, mn, mx⟩ ⟨d', mn, mx⟩ rfl rfl,
      add_unique_depth_irrel ⟨d, mn, mx⟩ ⟨d', mn, mx⟩ rfl rfl]

theorem generate_depth1_eq (cp : List String) (p : Profile) (mn mx : Nat) :
    generate_candidates cp p ⟨1, mn, mx⟩ = (gen_st2 cp p ⟨1, mn, mx⟩).candidates := by
  unfold generate_candidates gen_st6 gen_st5 gen_st4 gen_st3
  norm_num

theorem generate_depth2_eq (cp : List String) (p : Profile) (mn mx : Nat) :
    generate_candidates cp p ⟨2, mn, mx⟩ = (gen_st5 cp p ⟨2, mn, mx⟩).candidates := by
  unfold generate_candidates gen_st6
  norm_num

theorem gen_st5_extends (cp : List String) (p : Profile) (config : GeneratorConfig)
    (h2 : 2 ≤ config.depth) :
    (gen_st2 cp p config).candidates <+: (gen_st5 cp p config).candidates := by
  unfold gen_st5 gen_st4 gen_st3
  rw [if_pos h2, if_pos h2, if_pos h2]
  exact ((add_unique_extends _ _ _).trans (add_unique_extends _ _ _)).trans
    (add_unique_extends _ _ _)

theorem gen_st5_depth23 (cp : List String) (p : Profile) (mn mx : Nat) :
    gen_st5 cp p ⟨2, mn, mx⟩ = gen_st5 cp p ⟨3, mn, mx⟩ := by
  unfold gen_st5 gen_st4 gen_st3
  norm_num
  rw [gen_st2_depth_irrel cp p 2 3 mn mx]
  rw [add_unique_depth_irrel ⟨2, mn, mx⟩ ⟨3, mn, mx⟩ rfl rfl,
      add_unique_depth_irrel ⟨2, mn, mx⟩ ⟨3, mn, mx⟩ rfl rfl,
      add_unique_depth_irrel ⟨2, mn, mx⟩ ⟨3, mn, mx⟩ rfl rfl]

/-- Claim C3: with seeds and length bounds fixed, the candidate set at
depth 2 is a superset of the one at depth 1, and the set at depth 3 is a
superset of the one at depth 2. -/
theorem generate_candidates_depth_monotone (cp : List String) (p : Profile) (mn mx : Nat) :
    generate_candidates cp p ⟨1, mn, mx⟩ ⊆ generate_candidates cp p ⟨2, mn, mx⟩
    ∧ generate_candidates cp p ⟨2, mn, mx⟩ ⊆ generate_candidates cp p ⟨3, mn, mx⟩ := by
  constructor
  · rw [generate_depth1_eq, gen_st2_depth_irrel cp p 1 2 mn mx, generate_depth2_eq]
    exact (gen_st5_extends cp p ⟨2, mn, mx⟩ (by norm_num)).sublist.subset
  · rw [generate_depth2_eq, gen_st5_depth23]
    unfold generate_candidates gen_st6
    norm_num
    exact (add_unique_extends _ _ _).sublist.subset

/-- Claim C5 counterexample: with `max_length < min_length` (and likewise
with `min_length = 0`), no configuration error is detected and no failure
occurs: `generate_candidates` runs to completion, returning the empty list
in the first case and a normal candidate list in the second.  The invalid
bounds are never rejected anywhere in the source (the Rust signature has no
error path and neither `main.rs` nor `generator.rs` validates them). -/
theorem invalid_bounds_no_error_counterexample :
    generate_candidates ["password"] ⟨[], []⟩ ⟨1, 10, 3⟩ = []
    ∧ generate_candidates ["password"] ⟨[], []⟩ ⟨1, 0, 32⟩ = ["password"] :=
  ⟨by decide, by decide⟩

/-- Claim C5, amended: the code performs no validation of the length bounds
and `generate_candidates` never fails; when `max_length < min_length` the
length filter accepts nothing, so generation completes normally with an
empty candidate list (and `min_length = 0` is likewise accepted, the lower
bound being vacuous). -/
theorem invalid_bounds_generate_empty (cp : List String) (p : Profile)
    (config : GeneratorConfig) (h : config.max_length < config.min_length) :
    generate_candidates cp p config = [] := by
  unfold generate_candidates gen_st6 gen_st5 gen_st4 gen_st3 gen_st2 gen_st1
  simp only [add_unique_empty_bounds config h, ite_self]

theorem invalid_bounds_generate_empty_witness :
    generate_candidates ["abc"] ⟨["seed"], []⟩ ⟨2, 9, 4⟩ = [] :=
  invalid_bounds_generate_empty ["abc"] ⟨["seed"], []⟩ ⟨2, 9, 4⟩ (by decide)

/-- Claim C9: the generator's length filter measures candidates in UTF-8
bytes (`str::len`), not characters: `add_unique` accepts an unseen item
exactly when its byte length is within the bounds, so "üü" (two characters,
four bytes) is rejected by bounds 1..3 even though its character count fits,
while "é" (one character, two bytes) is accepted by bounds 2..2 even though
its character count is below the minimum. -/
theorem length_filter_utf8_bytes :
    (∀ (config : GeneratorConfig) (st : GenState) (item : String),
       ((add_unique config st [item]).candidates = st.candidates ++ [item] ↔
          (config.min_length ≤ strLen item ∧ strLen item ≤ config.max_length
           ∧ ¬ st.seen.contains item)))
    ∧ (1 ≤ ("üü" : String).data.length ∧ ("üü" : String).data.length ≤ 3
        ∧ (add_unique ⟨1, 1, 3⟩ ⟨[], []⟩ ["üü"]).candidates = [])
    ∧ (¬ (2 ≤ ("é" : String).data.length) ∧ 2 ≤ strLen "é"
        ∧ (add_unique ⟨1, 2, 2⟩ ⟨[], []⟩ ["é"]).candidates = ["é"])
    ∧ generate_candidates ["üü"] ⟨[], []⟩ ⟨1, 1, 3⟩ = [] := by
  refine ⟨?_, by decide, by decide, by decide⟩
  intro config st item
  have e : (add_unique config st [item]).candidates
      = if config.min_length ≤ strLen item ∧ strLen item ≤ config.max_length
            ∧ ¬ st.seen.contains item
        then st.candidates ++ [item] else st.candidates := by
    rw [add_unique_cons]
    split <;> rfl
  rw [e]
  split
  case isTrue hc => simpa using hc
  case isFalse hc =>
    simp only [iff_false_intro hc, iff_false]
    intro hbad
    have := congrArg List.length hbad
    simp at this

/-! ### Matching-engine lemmas and claims -/

theorem check_target_no_hit (algo : HashAlgorithm) (c h : String) (total : Nat)
    (st : FastState) (t : String) (hne : h ≠ t) :
    check_target algo c h total st t = st := by
  unfold check_target
  rw [if_neg hne]

theorem fold_check_no_hit (algo : HashAlgorithm) (c h : String) (total : Nat) :
    ∀ (targets : List String), h ∉ targets →
      ∀ st, targets.foldl (check_target algo c h total) st = st := by
  intro targets
  induction targets with
  | nil => intro _ st; rfl
  | cons t ts ih =>
    intro hni st
    rw [List.foldl_cons,
      check_target_no_hit algo c h total st t (fun he => hni (he ▸ List.mem_cons_self _ _))]
    exact ih (fun hmem => hni (List.mem_cons_of_mem _ hmem)) st

theorem process_no_match (impl : DigestImpl) (algo : HashAlgorithm)
    (targets : List String) (total : Nat) (c : String)
    (hni : compute_hash impl algo c ∉ targets) :
    ∀ st, process_candidate impl algo targets total st c = st := by
  intro st
  unfold process_candidate
  split
  · rfl
  · exact fold_check_no_hit algo c _ total targets hni st

theorem fold_process_no_match (impl : DigestImpl) (algo : HashAlgorithm)
    (targets : List String) (total : Nat) :
    ∀ (cs : List String), (∀ c ∈ cs, compute_hash impl algo c ∉ targets) →
      ∀ st, cs.foldl (process_candidate impl algo targets total) st = st := by
  intro cs
  induction cs with
  | nil => intro _ st; rfl
  | cons c cs ih =>
    intro hno st
    rw [List.foldl_cons,
      process_no_match impl algo targets total c (hno c (List.mem_cons_self _ _)) st]
    exact ih (fun x hx => hno x (List.mem_cons_of_mem _ hx)) st

theorem fold_check_single_hit (algo : HashAlgorithm) (c h : String) (total : Nat) :
    ∀ (targets : List String) (st : FastState), targets.count h = 1 →
      targets.foldl (check_target algo c h total) st =
        ⟨st.results ++ [⟨h, c, algo⟩], st.found_count + 1,
         if total ≤ st.found_count + 1 then true else st.all_found⟩ := by
  intro targets
  induction targets with
  | nil => intro st hc; simp at hc
  | cons t ts ih =>
    intro st hc
    rw [List.foldl_cons]
    by_cases he : h = t
    · subst he
      have hts : ts.count h = 0 := by
        rw [List.count_cons] at hc
        simp at hc
        omega
      have hni : h ∉ ts := List.count_eq_zero.mp hts
      have hstep : check_target algo c h total st h =
          ⟨st.results ++ [⟨h, c, algo⟩], st.found_count + 1,
           if total ≤ st.found_count + 1 then true else st.all_found⟩ := by
        unfold check_target
        rw [if_pos rfl]
      rw [hstep]
      exact fold_check_no_hit algo c h total ts hni _
    · rw [check_target_no_hit algo c h total st t he]
      apply ih
      rw [List.count_cons] at hc
      have ht : (t == h) = false := beq_eq_false_iff_ne.mpr (fun x => he x.symm)
      rw [ht] at hc
      simpa using hc

/-- Claim C1: when the candidate list contains (at exactly one position) the
plaintext of one of the target digests and no other candidate matches any
target, `crack_hashes` with algorithm MD5 succeeds and returns exactly one
`CrackResult` carrying that target digest, that plaintext and the MD5
algorithm tag. -/
theorem crack_hashes_md5_unique_match (impl : DigestImpl)
    (verify : String → String → Bool) (hashes l₁ l₂ : List String) (t p : String)
    (_hlow : strToLower t = t)
    (honce : (hashes.map strToLower).count t = 1)
    (hdig : compute_hash impl .Md5 p = t)
    (hother : ∀ c ∈ l₁ ++ l₂, compute_hash impl .Md5 c ∉ hashes.map strToLower) :
    crack_hashes impl verify hashes .Md5 (l₁ ++ p :: l₂) = .ok [⟨t, p, .Md5⟩] := by
  have htmem : t ∈ hashes.map strToLower := by
    have : 0 < (hashes.map strToLower).count t := by omega
    exact List.count_pos_iff.mp this
  have hne : hashes ≠ [] := by
    intro h
    subst h
    simp at htmem
  unfold crack_hashes
  rw [if_neg (by simpa [List.isEmpty_iff] using hne)]
  suffices hfast : crack_fast_hash impl hashes .Md5 (l₁ ++ p :: l₂) = [⟨t, p, .Md5⟩] by
    exact congrArg Except.ok hfast
  simp only [crack_fast_hash]
  have hinit := fold_process_no_match impl .Md5 (hashes.map strToLower)
    (hashes.map strToLower).length l₁
    (fun c hc => hother c (List.mem_append.mpr (Or.inl hc)))
    ⟨[], 0, false⟩
  rw [List.foldl_append, hinit, List.foldl_cons]
  have hstep : process_candidate impl .Md5 (hashes.map strToLower)
      (hashes.map strToLower).length ⟨[], 0, false⟩ p =
      ⟨[⟨t, p, .Md5⟩], 1, if (hashes.map strToLower).length ≤ 1 then true else false⟩ := by
    unfold process_candidate
    rw [if_neg (by simp), hdig]
    exact fold_check_single_hit .Md5 p t _ (hashes.map strToLower) ⟨[], 0, false⟩ honce
  rw [hstep]
  have hrest := fold_process_no_match impl .Md5 (hashes.map strToLower)
    (hashes.map strToLower).length l₂
    (fun c hc => hother c (List.mem_append.mpr (Or.inr hc)))
    ⟨[⟨t, p, .Md5⟩], 1, if (hashes.map strToLower).length ≤ 1 then true else false⟩
  rw [hrest]

theorem crack_hashes_md5_unique_match_witness :
    crack_hashes toy_impl toy_verify ["ab"] .Md5 (["no"] ++ "pw" :: []) =
      .ok [⟨"ab", "pw", .Md5⟩] :=
  crack_hashes_md5_unique_match toy_impl toy_verify ["ab"] ["no"] [] "ab" "pw"
    (by decide) (by decide) (by decide) (by decide)

theorem verify_no_hit (verify : String → String → Bool) (c : String) (total : Nat)
    (st : FastState) (t : String) (hnv : verify c t = false) :
    verify_target verify c total st t = st := by
  unfold verify_target
  rw [hnv]
  rfl

theorem fold_verify_no_hit (verify : String → String → Bool) (c : String) (total : Nat) :
    ∀ (hashes : List String), (∀ u ∈ hashes, verify c u = false) →
      ∀ st, hashes.foldl (verify_target verify c total) st = st := by
  intro hashes
  induction hashes with
  | nil => intro _ st; rfl
  | cons u us ih =>
    intro hno st
    rw [List.foldl_cons, verify_no_hit verify c total st u (hno u (List.mem_cons_self _ _))]
    exact ih (fun x hx => hno x (List.mem_cons_of_mem _ hx)) st

theorem fold_process_bcrypt_no_match (verify : String → String → Bool)
    (hashes : List String) :
    ∀ (cs : List String), (∀ c ∈ cs, ∀ u ∈ hashes, verify c u = false) →
      ∀ st, cs.foldl (process_bcrypt verify hashes) st = st := by
  intro cs
  induction cs with
  | nil => intro _ st; rfl
  | cons c cs ih =>
    intro hno st
    have hstep : process_bcrypt verify hashes st c = st := by
      unfold process_bcrypt
      split
      · rfl
      · exact fold_verify_no_hit verify c hashes.length hashes
          (hno c (List.mem_cons_self _ _)) st
    rw [List.foldl_cons, hstep]
    exact ih (fun x hx => hno x (List.mem_cons_of_mem _ hx)) st

theorem crack_fast_hash_no_match (impl : DigestImpl) (hashes : List String)
    (algo : HashAlgorithm) (candidates : List String)
    (h : ∀ c ∈ candidates, compute_hash impl algo c ∉ hashes.map strToLower) :
    crack_fast_hash impl hashes algo candidates = [] := by
  simp only [crack_fast_hash]
  rw [fold_process_no_match impl algo (hashes.map strToLower)
    (hashes.map strToLower).length candidates h ⟨[], 0, false⟩]

theorem crack_bcrypt_no_match (verify : String → String → Bool)
    (hashes candidates : List String)
    (h : ∀ c ∈ candidates, ∀ u ∈ hashes, verify c u = false) :
    crack_bcrypt verify hashes candidates = [] := by
  unfold crack_bcrypt
  rw [fold_process_bcrypt_no_match verify hashes candidates h ⟨[], 0, false⟩]

theorem crack_some (impl : DigestImpl) (verify : String → String → Bool)
    (algo_str : String) (hashes cs : List String) (a : HashAlgorithm)
    (hfs : HashAlgorithm.from_str algo_str = some a) :
    crack impl verify algo_str hashes cs = crack_hashes impl verify hashes a cs := by
  unfold crack
  rw [hfs]

/-- Claim C4: `crack` returns a configuration error exactly when the target
set is empty or the algorithm selector string is unrecognized; that error is
independent of the candidate list; and in every other case it succeeds — in
particular a run in which no candidate matches any target returns a
successful, empty result sequence. -/
theorem crack_config_error_contract (impl : DigestImpl)
    (verify : String → String → Bool) (algo_str : String)
    (hashes candidates : List String) :
    ((∃ e, crack impl verify algo_str hashes candidates = .error e) ↔
       (hashes = [] ∨ HashAlgorithm.from_str algo_str = none))
    ∧ (∀ cs', (hashes = [] ∨ HashAlgorithm.from_str algo_str = none) →
         crack impl verify algo_str hashes candidates =
           crack impl verify algo_str hashes cs')
    ∧ (∀ a, HashAlgorithm.from_str algo_str = some a → hashes ≠ [] →
         (∀ c ∈ candidates, ∀ u ∈ hashes,
            (a = .Bcrypt → verify c u = false)
            ∧ (a ≠ .Bcrypt → compute_hash impl a c ≠ strToLower u)) →
         crack impl verify algo_str hashes candidates = .ok []) := by
  refine ⟨⟨?_, ?_⟩, ?_, ?_⟩
  · rintro ⟨e, he⟩
    cases hfs : HashAlgorithm.from_str algo_str with
    | none => exact Or.inr rfl
    | some a =>
      rw [crack_some impl verify algo_str hashes candidates a hfs] at he
      unfold crack_hashes at he
      by_cases hh : hashes.isEmpty
      · exact Or.inl (List.isEmpty_iff.mp hh)
      · rw [if_neg hh] at he
        cases a <;> simp at he
  · intro h
    unfold crack
    cases hfs : HashAlgorithm.from_str algo_str with
    | none => exact ⟨"Unknown algorithm: " ++ algo_str, rfl⟩
    | some a =>
      rcases h with h | h
      · subst h
        exact ⟨"No hashes provided", rfl⟩
      · rw [hfs] at h
        exact absurd h (by simp)
  · intro cs' h
    unfold crack
    cases hfs : HashAlgorithm.from_str algo_str with
    | none => rfl
    | some a =>
      rcases h with h | h
      · subst h
        rfl
      · rw [hfs] at h
        exact absurd h (by simp)
  · intro a hfs hne hno
    rw [crack_some impl verify algo_str hashes candidates a hfs]
    unfold crack_hashes
    rw [if_neg (by simpa [List.isEmpty_iff] using hne)]
    cases a with
    | Bcrypt =>
      exact congrArg Except.ok (crack_bcrypt_no_match verify hashes candidates
        (fun c hc u hu => ((hno c hc u hu).1 rfl)))
    | Md5 =>
      have h' : crack_fast_hash impl hashes .Md5 candidates = [] := by
        apply crack_fast_hash_no_match
        intro c hc hmem
        obtain ⟨u, hu, he⟩ := List.mem_map.mp hmem
        exact (hno c hc u hu).2 (by simp) he.symm
      exact congrArg Except.ok h'
    | Sha1 =>
      have h' : crack_fast_hash impl hashes .Sha1 candidates = [] := by
        apply crack_fast_hash_no_match
        intro c hc hmem
        obtain ⟨u, hu, he⟩ := List.mem_map.mp hmem
        exact (hno c hc u hu).2 (by simp) he.symm
      exact congrArg Except.ok h'
    | Sha256 =>
      have h' : crack_fast_hash impl hashes .Sha256 candidates = [] := by
        apply crack_fast_hash_no_match
        intro c hc hmem
        obtain ⟨u, hu, he⟩ := List.mem_map.mp hmem
        exact (hno c hc u hu).2 (by simp) he.symm
      exact congrArg Except.ok h'
    | Sha512 =>
      have h' : crack_fast_hash impl hashes .Sha512 candidates = [] := by
        apply crack_fast_hash_no_match
        intro c hc hmem
        obtain ⟨u, hu, he⟩ := List.mem_map.mp hmem
        exact (hno c hc u hu).2 (by simp) he.symm
      exact congrArg Except.ok h'

theorem crack_config_error_contract_witness :
    crack toy_impl toy_verify "md5" ["aa"] ["x"] = .ok [] :=
  (crack_config_error_contract toy_impl toy_verify "md5" ["aa"] ["x"]).2.2 .Md5
    (by decide) (by decide) (by decide)

theorem hex_digit_mem (n : Nat) (h : n < 16) :
    hex_digit n ∈ ("0123456789abcdef" : String).data := by
  interval_cases n <;> decide

/-- Claim C8: fast-algorithm target digests are case-normalized to lowercase
before comparison — lowercasing the supplied targets first changes nothing,
so an uppercase-hex target matches exactly when its lowercase form does —
and every computed candidate digest consists solely of lowercase hex
characters. -/
theorem fast_hash_lowercase_normalization :
    (∀ (impl : DigestImpl) (hashes : List String) (algo : HashAlgorithm)
       (candidates : List String),
       crack_fast_hash impl hashes algo candidates
       = crack_fast_hash impl (hashes.map strToLower) algo candidates)
    ∧ (∀ (bs : List (Fin 256)), ∀ ch ∈ (hex_encode bs).data,
        ch ∈ ("0123456789abcdef" : String).data) := by
  constructor
  · intro impl hashes algo candidates
    simp only [crack_fast_hash]
    have e : (hashes.map strToLower).map strToLower = hashes.map strToLower := by
      rw [List.map_map]
      exact List.map_congr_left (fun s _ => strToLower_idem s)
    rw [e]
  · intro bs ch hch
    replace hch : ch ∈ bs.flatMap
        (fun b => [hex_digit (b.val / 16), hex_digit (b.val % 16)]) := hch
    obtain ⟨b, hb, hmem⟩ := List.mem_flatMap.mp hch
    have hdiv : b.val / 16 < 16 := Nat.div_lt_of_lt_mul (by omega)
    have hmod : b.val % 16 < 16 := Nat.mod_lt _ (by omega)
    rcases List.mem_cons.mp hmem with he | hmem2
    · exact he ▸ hex_digit_mem _ hdiv
    · rcases List.mem_cons.mp hmem2 with he | habs
      · exact he ▸ hex_digit_mem _ hmod
      · simp at habs

theorem fast_hash_lowercase_normalization_witness :
    'a' ∈ ("0123456789abcdef" : String).data :=
  fast_hash_lowercase_normalization.2 [(171 : Fin 256)] 'a' (by decide)

end PasswordGuesser
